import Mathlib

/-!
Shallow embedding of `src/scrape.py`, a single-domain breadth-first web
crawler with checkpoint/resume.

The pure helpers (`is_valid_url`, `fetch_page_metadata`, and the per-link
cleaning pipeline inside `fetch_links`) are translated directly from the
Python source.  String primitives from Python (`str.split`, `str.strip`,
`in`, `endswith`, `isdigit`) are re-implemented over `List Char` so that
everything evaluates inside the kernel.  The stateful crawl loop `scrape`
becomes explicit state passing with a fuel parameter; the network fetch is
an abstract parameter returning either the admitted links of a page plus
metadata, or `none` for a transport failure.
-/

namespace Scrape

/- ### Configuration parameters (scrape.py lines 11–22)

`max_pages` appears below as an explicit argument `B` of the driver, and
the fetch side (timeout, delay, user agent) is abstracted into the fetcher
parameter. -/

def domain : String := "visakanv.com"

def base_url : String := "https://" ++ domain ++ "/"

def badExtensions : List String := [".jpg", ".jpeg", ".png", ".gif", ".css", ".js"]

/- ### Python string primitives over `List Char` -/

/-- Decides whether `pre` is a prefix of `l`. -/
def isPrefixB : List Char → List Char → Bool
  | [], _ => true
  | _ :: _, [] => false
  | a :: as, b :: bs => a == b && isPrefixB as bs

/-- Python `needle in hay` (substring containment). -/
def containsSub (needle : List Char) : List Char → Bool
  | [] => isPrefixB needle []
  | c :: t => isPrefixB needle (c :: t) || containsSub needle t

/-- Python `s.endswith(suf)`. -/
def endsWithB (l suf : List Char) : Bool := isPrefixB suf.reverse l.reverse

/-- Python `s.split(sep)` for a one-character separator: keeps empty
chunks, and the split of the empty string is `[""]`. -/
def splitChar (sep : Char) : List Char → List (List Char)
  | [] => [[]]
  | x :: xs =>
    if x = sep then [] :: splitChar sep xs
    else
      match splitChar sep xs with
      | [] => [[x]]
      | h :: t => (x :: h) :: t

/-- Chunks of Python `s.split()` before dropping empties. -/
def splitWsRaw : List Char → List (List Char)
  | [] => [[]]
  | x :: xs =>
    if x.isWhitespace then [] :: splitWsRaw xs
    else
      match splitWsRaw xs with
      | [] => [[x]]
      | h :: t => (x :: h) :: t

/-- Python `len(s.split())`: number of whitespace-delimited tokens. -/
def pyWordCount (s : String) : Nat :=
  ((splitWsRaw s.data).filter (fun w => w ≠ [])).length

/-- Python `s.strip()`. -/
def pyStrip (s : String) : String :=
  ⟨((s.data.dropWhile Char.isWhitespace).reverse.dropWhile Char.isWhitespace).reverse⟩

/-- Python `s.isdigit()` (ASCII digits). -/
def isDigits (l : List Char) : Bool := !l.isEmpty && l.all Char.isDigit

/-- Python `int(s)` on a digit string. -/
def digitsToNat (l : List Char) : Nat :=
  l.foldl (fun n c => n * 10 + (c.toNat - '0'.toNat)) 0

/- ### URL parsing (model of `urllib.parse.urlparse` / `urljoin`)

`urlparse` is modelled for the URL shapes the scraper handles:
`scheme://netloc/path?query#fragment` with each component optional.  The
fragment is split off at the first `#`, the scheme at the first `://`, the
netloc runs until the next `/` or `?`, and the query follows the first `?`.
-/

/-- Split at the first occurrence of `sep`: the part before it, and
`some` part after it when `sep` occurs. -/
def splitFirst (sep : Char) : List Char → List Char × Option (List Char)
  | [] => ([], none)
  | x :: xs =>
    if x = sep then ([], some xs)
    else
      let r := splitFirst sep xs
      (x :: r.1, r.2)

/-- Split a URL at the first `://` into scheme and remainder, when present. -/
def splitScheme : List Char → Option (List Char × List Char)
  | [] => none
  | x :: xs =>
    if x = ':' ∧ xs.take 2 = ['/', '/'] then some ([], xs.drop 2)
    else
      match splitScheme xs with
      | some r => some (x :: r.1, r.2)
      | none => none

/-- The netloc part (up to the first `/` or `?`) and the remainder. -/
def netlocSplit : List Char → List Char × List Char
  | [] => ([], [])
  | x :: xs =>
    if x = '/' ∨ x = '?' then ([], x :: xs)
    else
      let r := netlocSplit xs
      (x :: r.1, r.2)

structure ParsedUrl where
  scheme : String
  netloc : String
  path : String
  query : String
  fragment : String
deriving DecidableEq, Repr

def urlparse (url : String) : ParsedUrl :=
  let fr := splitFirst '#' url.data
  let fragment := fr.2.getD []
  match splitScheme fr.1 with
  | some sr =>
    let nl := netlocSplit sr.2
    let pq := splitFirst '?' nl.2
    ⟨⟨sr.1⟩, ⟨nl.1⟩, ⟨pq.1⟩, ⟨pq.2.getD []⟩, ⟨fragment⟩⟩
  | none =>
    let pq := splitFirst '?' fr.1
    ⟨"", "", ⟨pq.1⟩, ⟨pq.2.getD []⟩, ⟨fragment⟩⟩

/-- The base URL with its fragment removed. -/
def defrag (s : String) : String := ⟨(splitFirst '#' s.data).1⟩

/-- Characters allowed in a URL scheme. -/
def isSchemeChar (c : Char) : Bool := c.isAlphanum || c == '+' || c == '-' || c == '.'

/-- Whether a URL string carries its own scheme (a letter-initial run of
scheme characters before a `:`), in which case `urljoin` keeps it as is. -/
def hasScheme (l : List Char) : Bool :=
  match splitFirst ':' l with
  | (pre, some _) =>
    !pre.isEmpty && pre.all isSchemeChar && (pre.headD ' ').isAlpha
  | (_, none) => false

/-- The path up to and including its last `/` (used for relative hrefs). -/
def dirOf (path : String) : String :=
  ⟨((path.data.reverse.dropWhile (fun c => c ≠ '/')).reverse)⟩

/-- Model of `urllib.parse.urljoin` restricted to the href shapes the
scraper meets: absolute URLs, scheme-relative (`//h/p`), root-relative
(`/p`), query-only, fragment-only, empty, and plain relative paths
(without dot-segment resolution). -/
def urljoin (base href : String) : String :=
  if href = "" then defrag base
  else if hasScheme (splitFirst '#' href.data).1 then href
  else
    let b := urlparse base
    let hostPart := b.scheme ++ "://" ++ b.netloc
    if isPrefixB "//".data href.data then b.scheme ++ ":" ++ href
    else if isPrefixB "/".data href.data then hostPart ++ href
    else if isPrefixB "#".data href.data then defrag base ++ href
    else if isPrefixB "?".data href.data then hostPart ++ b.path ++ href
    else hostPart ++ dirOf b.path ++ href

/- ### Admission filter (scrape.py lines 33–44) -/

/-- Function `is_valid_url` (lines 33–44): scheme in {http, https}, netloc ends
with the configured domain (plain string suffix), no disallowed extension
occurs as a substring of the path, and the given URL string contains no
`#`.  The `try/except` around `urlparse` is dropped: the model of
`urlparse` is total. -/
def is_valid_url (url : String) : Bool :=
  let parsed := urlparse url
  (parsed.scheme == "http" || parsed.scheme == "https") &&
  endsWithB parsed.netloc.data domain.data &&
  !(badExtensions.any (fun ext => containsSub ext.data parsed.path.data)) &&
  !(containsSub "#".data url.data)

/- ### Per-link pipeline inside `fetch_links` (scrape.py lines 85–95) -/

/-- Lines 88–92: resolve the href against the page URL and rebuild the URL
from scheme, netloc, path and (when non-empty) query — the fragment is
dropped here. -/
def clean_url_of (page href : String) : String :=
  let parsed := urlparse (urljoin page href)
  let c := parsed.scheme ++ "://" ++ parsed.netloc ++ parsed.path
  if parsed.query ≠ "" then c ++ "?" ++ parsed.query else c

/-- Lines 88–95: the canonical URL a discovered href contributes, or
`none` when `is_valid_url` rejects its cleaned form. -/
def processLink (page href : String) : Option String :=
  let clean := clean_url_of page href
  if is_valid_url clean then some clean else none

/-- Lines 84–95: the set of admitted links collected from the hrefs of a page
(`links` is a Python set: insertion deduplicates). -/
def linkCandidates (page : String) (hrefs : List String) : List String :=
  hrefs.foldl
    (fun acc href =>
      match processLink page href with
      | some c => if c ∈ acc then acc else acc ++ [c]
      | none => acc)
    []

/- ### Page metadata (scrape.py lines 46–71) -/

/-- A metadata record is a Python dict whose keys may be absent, so every
field is an `Option`; a fetch failure yields the empty dict `{}`. -/
structure Metadata where
  url : Option String := none
  title : Option String := none
  word_count : Option Nat := none
  pub_date : Option String := none
deriving DecidableEq, Repr

def emptyMetadata : Metadata := {}

/-- The parsed page as the scraper reads it: `soup.title.string` (absent
when there is no title tag), `soup.get_text()`, and the
`article:published_time` meta tag (`none` when the tag is absent; the
inner option is its `content` attribute). -/
structure Soup where
  title : Option String := none
  text : String := ""
  published_meta : Option (Option String) := none

/-- Lines 62–67: scan the `/`-separated parts of the URL for a 4-digit
all-digit part immediately followed by an all-digit part whose value lies
in [1, 12]; each hit overwrites `pub_date`, so the last hit wins.  The
body cannot raise, so the `except` branch that would store `"Unknown"` is
unreachable. -/
def scanUrlDate (parts : List (List Char)) : Option String :=
  (List.range parts.length).foldl
    (fun acc i =>
      let part := parts.getD i []
      let nxt := parts.getD (i + 1) []
      if isDigits part && part.length == 4 &&
          decide (i + 1 < parts.length) && isDigits nxt &&
          decide (1 ≤ digitsToNat nxt) && decide (digitsToNat nxt ≤ 12) then
        some ⟨part ++ '-' :: nxt⟩
      else acc)
    none

/-- Function `fetch_page_metadata` (lines 46–71).  Note that when neither the meta
tag nor the URL provides a date, no `pub_date` key is stored at all. -/
def fetch_page_metadata (url : String) (soup : Soup) : Metadata :=
  let base : Metadata :=
    { url := some url
      title := some (match soup.title with
        | some t => pyStrip t
        | none => "No Title")
      word_count := some (pyWordCount soup.text) }
  match soup.published_meta with
  | some content => { base with pub_date := some (content.getD "Unknown") }
  | none => { base with pub_date := scanUrlDate (splitChar '/' url.data) }

/- ### The link graph (networkx `DiGraph` as the scraper uses it) -/

/-- Nodes are an insertion-ordered association list from URL to attribute
record; edges an insertion-ordered list of directed pairs. -/
structure Graph where
  nodes : List (String × Metadata) := []
  edges : List (String × String) := []
deriving DecidableEq, Repr

def hasNode (g : Graph) (u : String) : Bool := g.nodes.any (fun p => p.1 = u)

/-- Method `DiGraph.add_node(u, **attrs)`: creates the node if absent, otherwise
updates its attribute dict.  The crawler passes the full metadata dict of
each URL exactly once (the only pre-existing nodes are attribute-less ones
created by `add_edge`), so updating coincides with replacing. -/
def addNode (g : Graph) (u : String) (m : Metadata) : Graph :=
  if hasNode g u then
    { g with nodes := g.nodes.map (fun p => if p.1 = u then (u, m) else p) }
  else
    { g with nodes := g.nodes ++ [(u, m)] }

/-- Implicit node creation by add_edge: a missing endpoint is added with
an empty attribute dict. -/
def ensureNode (g : Graph) (u : String) : Graph :=
  if hasNode g u then g else { g with nodes := g.nodes ++ [(u, emptyMetadata)] }

/-- Method `DiGraph.add_edge(u, v)`: inserts both endpoints when missing, then
the edge; re-adding an existing edge is a no-op. -/
def addEdge (g : Graph) (u v : String) : Graph :=
  let g := ensureNode (ensureNode g u) v
  if (u, v) ∈ g.edges then g else { g with edges := g.edges ++ [(u, v)] }

/- ### Crawl state and driver (scrape.py lines 28–31, 146–186) -/

/-- The module-level crawl state: `graph`, `visited`, `queue`, `queued`.
`visited` and `queued` are Python sets; `visited` is modelled as the list
of URLs in insertion order (the loop only ever appends fresh elements),
which also records the visit order. -/
structure CrawlState where
  graph : Graph := {}
  visited : List String := []
  queue : List String := []
  queued : List String := []
deriving DecidableEq, Repr

/-- The page fetcher: for a URL, either the admitted links plus metadata,
or `none` for a transport failure / unexpected error. -/
def Fetcher : Type := String → Option (List String × Metadata)

/-- Lines 103–108: any failure is turned into `(set(), {})`. -/
def fetch_links (f : Fetcher) (url : String) : List String × Metadata :=
  (f url).getD ([], emptyMetadata)

/-- Lines 177–181, one link: add the edge unconditionally; enqueue the
target iff it is neither visited nor already queued. -/
def admitLink (s : CrawlState) (src link : String) : CrawlState :=
  let s := { s with graph := addEdge s.graph src link }
  if link ∉ s.visited ∧ link ∉ s.queued then
    { s with queue := s.queue ++ [link], queued := s.queued ++ [link] }
  else s

/-- Lines 160–181: fetch the page, mark it visited, record its node, then
admit each discovered link. -/
def processUrl (f : Fetcher) (s : CrawlState) (url : String) : CrawlState :=
  let lm := fetch_links f url
  let s := { s with visited := s.visited ++ [url] }
  let s := { s with graph := addNode s.graph url lm.2 }
  lm.1.foldl (fun t link => admitLink t url link) s

/-- One iteration of the `while` body (lines 151–181): increment the
counter, pop the queue head and drop it from `queued` (`set.remove`
requires membership, which the loop invariant guarantees), skip
already-visited URLs (decrementing the counter back), otherwise process
the page.  The periodic `save_checkpoint` call only performs I/O and does
not change the state. -/
def scrapeStep (f : Fetcher) (sc : CrawlState × Nat) : CrawlState × Nat :=
  match sc.1.queue with
  | [] => sc
  | url :: rest =>
    let s1 : CrawlState := { sc.1 with queue := rest, queued := sc.1.queued.erase url }
    if url ∈ s1.visited then (s1, sc.2 + 1 - 1)
    else (processUrl f s1 url, sc.2 + 1)

/-- The state the module globals hold in the window between lines 153–154
(`queue.popleft()`, `queued.remove(url)`) and line 174 (`visited.add`):
the popped URL is in neither the frontier nor the visited set.  A
KeyboardInterrupt raised while `fetch_links` blocks (line 160) — it
derives from BaseException, so the `except Exception` inside
`fetch_links` does not catch it — reaches the outer handler with the
globals in exactly this state, and that is what `save_checkpoint` then
writes. -/
def dequeueOnly (s : CrawlState) : CrawlState :=
  match s.queue with
  | [] => s
  | url :: rest => { s with queue := rest, queued := s.queued.erase url }

/-- The `while queue and counter < max_pages` guard (line 150). -/
def loopCond (B : Nat) (sc : CrawlState × Nat) : Prop :=
  sc.1.queue ≠ [] ∧ sc.2 < B

instance (B : Nat) (sc : CrawlState × Nat) : Decidable (loopCond B sc) :=
  inferInstanceAs (Decidable (_ ∧ _))

/-- The crawl loop with explicit fuel; once the guard fails the state is
returned unchanged, so extra fuel is harmless. -/
def loopGo (f : Fetcher) (B : Nat) : Nat → CrawlState × Nat → CrawlState × Nat
  | 0, sc => sc
  | fuel + 1, sc => if loopCond B sc then loopGo f B fuel (scrapeStep f sc) else sc

/-- Function `scrape()` (lines 146–186): the counter starts at `len(visited)`
(line 148), then the loop runs. -/
def scrape (f : Fetcher) (B fuel : Nat) (s : CrawlState) : CrawlState × Nat :=
  loopGo f B fuel (s, s.visited.length)

/-- The state of a fresh run (lines 199–200): frontier and queued hold exactly
the seed. -/
def freshState (seed : String) : CrawlState :=
  { queue := [seed], queued := [seed] }

/- ### Checkpointing (scrape.py lines 140–144, 192–196)

`pickle` round-trips the tuple `(graph, visited, queue, queued)` exactly;
serialization itself is external I/O, so a checkpoint is modelled as that
tuple. -/

def Checkpoint : Type := Graph × List String × List String × List String

instance : DecidableEq Checkpoint :=
  inferInstanceAs (DecidableEq (Graph × List String × List String × List String))

/-- Function `save_checkpoint` (lines 140–144): dump the 4-tuple.  The counter is
not part of the checkpoint. -/
def save_checkpoint (s : CrawlState) : Checkpoint :=
  (s.graph, s.visited, s.queue, s.queued)

/-- Loading a checkpoint (lines 194–195): restore the 4-tuple. -/
def load_checkpoint (c : Checkpoint) : CrawlState :=
  ⟨c.1, c.2.1, c.2.2.1, c.2.2.2⟩

/- ### Process exit behaviour (scrape.py lines 188–219) -/

/-- How the `try` body of `__main__` ends: normal completion of
`scrape` + export, a `KeyboardInterrupt`, or any other exception. -/
inductive RunOutcome where
  | completed
  | keyboardInterrupt
  | error (msg : String)
deriving DecidableEq, Repr

/-- What the process does on exit: whether the graph was exported, which
checkpoint (if any) the handlers saved, and which error (if any) is
re-raised so the process exits abnormally. -/
structure MainExit where
  exportedGraph : Bool
  savedOnExit : Option Checkpoint
  propagated : Option String
deriving DecidableEq

/-- Lines 188–219: on completion, export and exit normally; on
`KeyboardInterrupt`, save a checkpoint and swallow the exception; on any
other exception, save a checkpoint and re-raise it. -/
def main_exit (outcome : RunOutcome) (s : CrawlState) : MainExit :=
  match outcome with
  | .completed => ⟨true, none, none⟩
  | .keyboardInterrupt => ⟨false, some (save_checkpoint s), none⟩
  | .error e => ⟨false, some (save_checkpoint s), some e⟩

/- ### Reference breadth-first traversal (spec §5, §8)

Written from the words of the spec: a FIFO frontier, a seen set that admits
each URL once, and the visit order recorded as `order`. -/

structure BfsState where
  order : List String := []
  seen : List String := []
  queue : List String := []
deriving DecidableEq, Repr

/-- The neighbour function the crawl effectively explores: the links the
(possibly failing) fetcher yields. -/
def linksOf (f : Fetcher) (u : String) : List String := (fetch_links f u).1

def bfsAdmit (t : BfsState) (v : String) : BfsState :=
  if v ∈ t.seen then t
  else { t with seen := t.seen ++ [v], queue := t.queue ++ [v] }

def bfsStep (g : String → List String) (t : BfsState) : BfsState :=
  match t.queue with
  | [] => t
  | u :: rest =>
    (g u).foldl bfsAdmit { t with queue := rest, order := t.order ++ [u] }

def bfsRun (g : String → List String) : Nat → BfsState → BfsState
  | 0, t => t
  | n + 1, t => if t.queue ≠ [] then bfsRun g n (bfsStep g t) else t

def bfsInit (seed : String) : BfsState := ⟨[], [seed], [seed]⟩

/- ### Invariants of the crawl state -/

/-- The queue bookkeeping invariant: `queued` mirrors the frontier (here:
is the same list), the frontier holds no duplicates, and no queued URL is
already visited. -/
def QInv (s : CrawlState) : Prop :=
  s.queued = s.queue ∧ s.queue.Nodup ∧ ∀ u ∈ s.queue, u ∉ s.visited

instance (s : CrawlState) : Decidable (QInv s) :=
  inferInstanceAs (Decidable (_ ∧ _ ∧ _))

/-- The loop-top invariant: the queue bookkeeping holds, the counter
equals the number of visited pages, and the counter never exceeds the
budget. -/
def CInv (B : Nat) (sc : CrawlState × Nat) : Prop :=
  QInv sc.1 ∧ sc.2 = sc.1.visited.length ∧ sc.2 ≤ B

/-- Every node of the graph is either a visited page or the target of a
recorded edge (`add_edge` creates bare nodes for link targets). -/
def Covered (g : Graph) (vis : List String) : Prop :=
  ∀ p ∈ g.nodes, p.1 ∈ vis ∨ ∃ e ∈ g.edges, e.2 = p.1

/- ### Concrete sample inputs used by witnesses and counterexamples -/

/-- A finite four-page site: the seed links to `a` and `b`, `a` to `c`,
`b` to `d` and back to `a`. -/
def sampleFetcher : Fetcher := fun u =>
  if u = "https://visakanv.com/" then
    some (["https://visakanv.com/a", "https://visakanv.com/b"], emptyMetadata)
  else if u = "https://visakanv.com/a" then
    some (["https://visakanv.com/c"], emptyMetadata)
  else if u = "https://visakanv.com/b" then
    some (["https://visakanv.com/d", "https://visakanv.com/a"], emptyMetadata)
  else some ([], emptyMetadata)

/-- An unbounded synthetic link graph: every page links to one fresh URL. -/
def chainFetcher : Fetcher := fun u => some ([u ++ "0"], emptyMetadata)

/-- A fetcher whose every request fails. -/
def noneFetcher : Fetcher := fun _ => none

/-- A three-page line: the seed links to `a`, `a` links to `c`, and every
other page (including `c`) has no links; page `a` carries a title. -/
def lineFetcher : Fetcher := fun u =>
  if u = "https://visakanv.com/" then
    some (["https://visakanv.com/a"], emptyMetadata)
  else if u = "https://visakanv.com/a" then
    some (["https://visakanv.com/c"], { title := some "A Page" })
  else some ([], emptyMetadata)

/-- A page with no title tag, no text, and no published-time meta tag. -/
def noDateSoup : Soup := {}

/-- A state as restored from a checkpoint of an earlier run: one page
visited, one queued. -/
def resumedState : CrawlState :=
  { visited := ["https://visakanv.com/"],
    queue := ["https://visakanv.com/a"],
    queued := ["https://visakanv.com/a"] }

lemma admitLink_visited (s : CrawlState) (src link : String) :
    (admitLink s src link).visited = s.visited := by
  unfold admitLink
  dsimp only
  split <;> rfl

lemma admitLink_graph (s : CrawlState) (src link : String) :
    (admitLink s src link).graph = addEdge s.graph src link := by
  unfold admitLink
  dsimp only
  split <;> rfl

lemma admitLink_of_new (s : CrawlState) (src link : String)
    (h : link ∉ s.visited ∧ link ∉ s.queued) :
    (admitLink s src link).queue = s.queue ++ [link] ∧
    (admitLink s src link).queued = s.queued ++ [link] := by
  unfold admitLink
  dsimp only
  rw [if_pos h]
  exact ⟨rfl, rfl⟩

lemma admitLink_of_old (s : CrawlState) (src link : String)
    (h : ¬(link ∉ s.visited ∧ link ∉ s.queued)) :
    (admitLink s src link).queue = s.queue ∧
    (admitLink s src link).queued = s.queued := by
  unfold admitLink
  dsimp only
  rw [if_neg h]
  exact ⟨rfl, rfl⟩

lemma QInv_admitLink {s : CrawlState} (src link : String) (h : QInv s) :
    QInv (admitLink s src link) := by
  obtain ⟨hqq, hnd, hdis⟩ := h
  by_cases hc : link ∉ s.visited ∧ link ∉ s.queued
  · obtain ⟨h1, h2⟩ := admitLink_of_new s src link hc
    refine ⟨?_, ?_, ?_⟩
    · rw [h1, h2, hqq]
    · rw [h1]
      simp only [List.nodup_append, List.nodup_cons, List.not_mem_nil,
        not_false_iff, List.nodup_nil, and_true, true_and]
      refine ⟨hnd, ?_⟩
      intro a ha hb
      rw [List.mem_singleton] at hb
      exact (hqq ▸ hc.2) (hb ▸ ha)
    · rw [h1]
      intro u hu
      rw [admitLink_visited]
      rcases List.mem_append.mp hu with hu | hu
      · exact hdis u hu
      · rw [List.mem_singleton] at hu
        exact hu ▸ hc.1
  · obtain ⟨h1, h2⟩ := admitLink_of_old s src link hc
    refine ⟨?_, ?_, ?_⟩
    · rw [h1, h2, hqq]
    · rw [h1]; exact hnd
    · rw [h1]
      intro u hu
      rw [admitLink_visited]
      exact hdis u hu

lemma foldAdmit_visited (src : String) :
    ∀ (ls : List String) (s : CrawlState),
      (ls.foldl (fun a l => admitLink a src l) s).visited = s.visited := by
  intro ls
  induction ls with
  | nil => intro s; rfl
  | cons x xs ih =>
    intro s
    simp only [List.foldl_cons]
    rw [ih, admitLink_visited]

lemma QInv_foldAdmit (src : String) :
    ∀ (ls : List String) (s : CrawlState), QInv s →
      QInv (ls.foldl (fun a l => admitLink a src l) s) := by
  intro ls
  induction ls with
  | nil => intro s h; exact h
  | cons x xs ih =>
    intro s h
    simp only [List.foldl_cons]
    exact ih _ (QInv_admitLink src x h)

/- ### Characterizing one loop iteration -/

lemma scrapeStep_nil (f : Fetcher) (s : CrawlState) (c : Nat) (h : s.queue = []) :
    scrapeStep f (s, c) = (s, c) := by
  obtain ⟨g, vis, q, qd⟩ := s
  dsimp only at h
  subst h
  rfl

lemma scrapeStep_cons (f : Fetcher) (s : CrawlState) (c : Nat) (url : String)
    (rest : List String) (hq : s.queue = url :: rest) (hv : url ∉ s.visited) :
    scrapeStep f (s, c) =
      (processUrl f { s with queue := rest, queued := s.queued.erase url } url, c + 1) := by
  obtain ⟨g, vis, q, qd⟩ := s
  dsimp only at hq hv
  subst hq
  unfold scrapeStep
  dsimp only
  rw [if_neg hv]

lemma processUrl_visited (f : Fetcher) (s : CrawlState) (url : String) :
    (processUrl f s url).visited = s.visited ++ [url] := by
  unfold processUrl
  dsimp only
  rw [foldAdmit_visited]

lemma processUrl_queue_queued (f : Fetcher) (s : CrawlState) (url : String) :
    (processUrl f s url).queue =
      ((fetch_links f url).1.foldl (fun a l => admitLink a url l)
        { s with visited := s.visited ++ [url],
                 graph := addNode s.graph url (fetch_links f url).2 }).queue := rfl

lemma QInv_dequeue (s : CrawlState) (url : String) (rest : List String)
    (h : QInv s) (hq : s.queue = url :: rest) :
    s.queued.erase url = rest ∧
    QInv { s with queue := rest, queued := s.queued.erase url } := by
  have he : s.queued.erase url = rest := by
    rw [h.1, hq, List.erase_cons_head]
  refine ⟨he, ?_, ?_, ?_⟩
  · exact he
  · have := h.2.1
    rw [hq] at this
    exact this.of_cons
  · intro u hu
    exact h.2.2 u (hq ▸ List.mem_cons_of_mem url hu)

lemma QInv_scrapeStep (f : Fetcher) (s : CrawlState) (c : Nat) (h : QInv s) :
    QInv (scrapeStep f (s, c)).1 := by
  cases hq : s.queue with
  | nil => rw [scrapeStep_nil f s c hq]; exact h
  | cons url rest =>
    have hv : url ∉ s.visited := h.2.2 url (hq ▸ List.mem_cons_self url rest)
    rw [scrapeStep_cons f s c url rest hq hv]
    obtain ⟨he, hd⟩ := QInv_dequeue s url rest h hq
    have hnd : (url :: rest).Nodup := hq ▸ h.2.1
    unfold processUrl
    dsimp only
    apply QInv_foldAdmit
    refine ⟨hd.1, hd.2.1, ?_⟩
    intro u hu
    dsimp only at hu ⊢
    rw [List.mem_append]
    rintro (huv | hul)
    · exact hd.2.2 u hu huv
    · rw [List.mem_singleton] at hul
      exact (List.nodup_cons.mp hnd).1 (hul ▸ hu)

lemma scrapeStep_counts (f : Fetcher) (s : CrawlState) (c : Nat) (url : String)
    (rest : List String) (h : QInv s) (hq : s.queue = url :: rest) :
    (scrapeStep f (s, c)).1.visited.length = s.visited.length + 1 ∧
    (scrapeStep f (s, c)).2 = c + 1 := by
  have hv : url ∉ s.visited := h.2.2 url (hq ▸ List.mem_cons_self url rest)
  rw [scrapeStep_cons f s c url rest hq hv]
  constructor
  · dsimp only
    rw [processUrl_visited]
    simp
  · rfl

/- ### The fuelled loop -/

lemma loopGo_succ_cond (f : Fetcher) (B n : Nat) (sc : CrawlState × Nat)
    (h : loopCond B sc) :
    loopGo f B (n + 1) sc = loopGo f B n (scrapeStep f sc) := by
  show (if loopCond B sc then loopGo f B n (scrapeStep f sc) else sc) =
    loopGo f B n (scrapeStep f sc)
  exact if_pos h

lemma loopGo_stable (f : Fetcher) (B : Nat) (sc : CrawlState × Nat)
    (h : ¬ loopCond B sc) : ∀ n, loopGo f B n sc = sc := by
  intro n
  cases n with
  | zero => rfl
  | succ n =>
    unfold loopGo
    rw [if_neg h]

lemma loopGo_add (f : Fetcher) (B : Nat) :
    ∀ (m n : Nat) (sc : CrawlState × Nat),
      loopGo f B (m + n) sc = loopGo f B n (loopGo f B m sc) := by
  intro m
  induction m with
  | zero =>
    intro n sc
    rw [Nat.zero_add]
    rfl
  | succ m ih =>
    intro n sc
    by_cases h : loopCond B sc
    · rw [Nat.succ_add]
      rw [loopGo_succ_cond f B (m + n) sc h, loopGo_succ_cond f B m sc h]
      exact ih n (scrapeStep f sc)
    · rw [loopGo_stable f B sc h, loopGo_stable f B sc h, loopGo_stable f B sc h]

lemma loopGo_eq_of_terminal (f : Fetcher) (B : Nat) (sc : CrawlState × Nat)
    (a b : Nat) (ha : ¬ loopCond B (loopGo f B a sc))
    (hb : ¬ loopCond B (loopGo f B b sc)) :
    loopGo f B a sc = loopGo f B b sc := by
  have key : ∀ x y : Nat, x ≤ y → ¬ loopCond B (loopGo f B x sc) →
      loopGo f B y sc = loopGo f B x sc := by
    intro x y hxy hx
    have hy : y = x + (y - x) := by omega
    rw [hy, loopGo_add, loopGo_stable f B _ hx]
  rcases Nat.le_total a b with h | h
  · rw [key a b h ha]
  · rw [key b a h hb]

lemma CInv_scrapeStep (f : Fetcher) (B : Nat) (sc : CrawlState × Nat)
    (h : CInv B sc) (hc : loopCond B sc) : CInv B (scrapeStep f sc) := by
  obtain ⟨s, c⟩ := sc
  obtain ⟨hq, hcount, hle⟩ := h
  obtain ⟨hne, hlt⟩ := hc
  dsimp only at hne hlt hcount
  cases hql : s.queue with
  | nil => exact absurd hql hne
  | cons url rest =>
    obtain ⟨h1, h2⟩ := scrapeStep_counts f s c url rest hq hql
    exact ⟨QInv_scrapeStep f s c hq, by rw [h1, h2, hcount], by omega⟩

lemma CInv_loopGo (f : Fetcher) (B : Nat) :
    ∀ (n : Nat) (sc : CrawlState × Nat), CInv B sc → CInv B (loopGo f B n sc) := by
  intro n
  induction n with
  | zero => intro sc h; exact h
  | succ n ih =>
    intro sc h
    by_cases hc : loopCond B sc
    · rw [loopGo_succ_cond f B n sc hc]
      exact ih _ (CInv_scrapeStep f B sc h hc)
    · rw [loopGo_stable f B sc hc]
      exact h

/- ### The crawl loop refines the reference BFS -/

lemma bfsRun_succ_cond (g : String → List String) (n : Nat) (t : BfsState)
    (h : t.queue ≠ []) : bfsRun g (n + 1) t = bfsRun g n (bfsStep g t) := by
  show (if t.queue ≠ [] then bfsRun g n (bfsStep g t) else t) = bfsRun g n (bfsStep g t)
  exact if_pos h

lemma bfsRun_stable (g : String → List String) (t : BfsState)
    (h : t.queue = []) : ∀ n, bfsRun g n t = t := by
  intro n
  cases n with
  | zero => rfl
  | succ n =>
    show (if t.queue ≠ [] then bfsRun g n (bfsStep g t) else t) = t
    rw [if_neg (by rw [h]; exact fun hc => hc rfl)]

lemma bfsStep_cons (g : String → List String) (t : BfsState) (url : String)
    (rest : List String) (h : t.queue = url :: rest) :
    bfsStep g t = (g url).foldl bfsAdmit
      { t with queue := rest, order := t.order ++ [url] } := by
  obtain ⟨o, se, q⟩ := t
  dsimp only at h
  subst h
  rfl

/-- Folding the links of one page: the `admitLink` sequence of the crawl and the
reference BFS admission keep the two states aligned (`order` = visit
list, same frontier, `seen` = visited followed by frontier, `queued` =
frontier). -/
lemma foldAdmit_bfs (src : String) :
    ∀ (ls : List String) (s : CrawlState) (t : BfsState),
      t.order = s.visited → t.queue = s.queue → t.seen = s.visited ++ s.queue →
      s.queued = s.queue →
      (ls.foldl bfsAdmit t).order = (ls.foldl (fun a l => admitLink a src l) s).visited ∧
      (ls.foldl bfsAdmit t).queue = (ls.foldl (fun a l => admitLink a src l) s).queue ∧
      (ls.foldl bfsAdmit t).seen =
        (ls.foldl (fun a l => admitLink a src l) s).visited ++
          (ls.foldl (fun a l => admitLink a src l) s).queue ∧
      (ls.foldl (fun a l => admitLink a src l) s).queued =
        (ls.foldl (fun a l => admitLink a src l) s).queue := by
  intro ls
  induction ls with
  | nil =>
    intro s t h1 h2 h3 h4
    exact ⟨h1, h2, h3, h4⟩
  | cons v vs ih =>
    intro s t h1 h2 h3 h4
    simp only [List.foldl_cons]
    by_cases hnew : v ∉ s.visited ∧ v ∉ s.queued
    · have hseen : v ∉ t.seen := by
        rw [h3, List.mem_append]
        push_neg
        exact ⟨hnew.1, h4 ▸ hnew.2⟩
      have hb : bfsAdmit t v = { t with seen := t.seen ++ [v], queue := t.queue ++ [v] } := by
        unfold bfsAdmit
        rw [if_neg hseen]
      obtain ⟨hq', hqd'⟩ := admitLink_of_new s src v hnew
      apply ih
      · rw [hb, admitLink_visited]
        exact h1
      · rw [hb]
        dsimp only
        rw [h2, hq']
      · rw [hb]
        dsimp only
        rw [admitLink_visited, hq', h3]
        simp [List.append_assoc]
      · rw [hq', hqd', h4]
    · have hseen : v ∈ t.seen := by
        rw [h3, List.mem_append]
        push_neg at hnew
        by_cases hv : v ∈ s.visited
        · exact Or.inl hv
        · exact Or.inr (h4 ▸ hnew hv)
      have hb : bfsAdmit t v = t := by
        unfold bfsAdmit
        rw [if_pos hseen]
      obtain ⟨hq', hqd'⟩ := admitLink_of_old s src v hnew
      apply ih
      · rw [hb, admitLink_visited]
        exact h1
      · rw [hb, hq']
        exact h2
      · rw [hb, admitLink_visited, hq']
        exact h3
      · rw [hq', hqd']
        exact h4

/-- One loop iteration keeps the crawl state aligned with the reference
BFS state. -/
lemma scrapeStep_bfs (f : Fetcher) (s : CrawlState) (t : BfsState) (c : Nat)
    (url : String) (rest : List String) (hq : s.queue = url :: rest) (h : QInv s)
    (h1 : t.order = s.visited) (h2 : t.queue = s.queue)
    (h3 : t.seen = s.visited ++ s.queue) :
    (bfsStep (linksOf f) t).order = (scrapeStep f (s, c)).1.visited ∧
    (bfsStep (linksOf f) t).queue = (scrapeStep f (s, c)).1.queue ∧
    (bfsStep (linksOf f) t).seen =
      (scrapeStep f (s, c)).1.visited ++ (scrapeStep f (s, c)).1.queue ∧
    (scrapeStep f (s, c)).1.queued = (scrapeStep f (s, c)).1.queue := by
  have hv : url ∉ s.visited := h.2.2 url (hq ▸ List.mem_cons_self url rest)
  obtain ⟨he, _⟩ := QInv_dequeue s url rest h hq
  rw [scrapeStep_cons f s c url rest hq hv,
    bfsStep_cons (linksOf f) t url rest (h2.trans hq)]
  unfold processUrl
  dsimp only
  rw [he]
  apply foldAdmit_bfs
  · dsimp only
    rw [h1]
  · rfl
  · dsimp only
    rw [h3, hq]
    simp [List.append_assoc]
  · rfl

/-- The visit order of the crawl equals the reference BFS order, as long as
the budget has not yet been consumed. -/
lemma loopGo_bfs (f : Fetcher) (B : Nat) :
    ∀ (n : Nat) (s : CrawlState) (t : BfsState) (c : Nat),
      QInv s → t.order = s.visited → t.queue = s.queue →
      t.seen = s.visited ++ s.queue → c = s.visited.length → c + n ≤ B →
      (loopGo f B n (s, c)).1.visited = (bfsRun (linksOf f) n t).order := by
  intro n
  induction n with
  | zero =>
    intro s t c _ h1 _ _ _ _
    exact h1.symm
  | succ n ih =>
    intro s t c hQ h1 h2 h3 hcount hbudget
    cases hq : s.queue with
    | nil =>
      have hstop : ¬ loopCond B (s, c) := by
        intro hc
        exact hc.1 hq
      rw [loopGo_stable f B (s, c) hstop, bfsRun_stable (linksOf f) t (h2.trans hq)]
      exact h1.symm
    | cons url rest =>
      have hc : loopCond B (s, c) := ⟨by rw [hq]; exact List.cons_ne_nil url rest, by omega⟩
      rw [loopGo_succ_cond f B n (s, c) hc,
        bfsRun_succ_cond (linksOf f) n t (by rw [h2, hq]; exact List.cons_ne_nil url rest)]
      obtain ⟨b1, b2, b3, b4⟩ := scrapeStep_bfs f s t c url rest hq hQ h1 h2 h3
      obtain ⟨c1, c2⟩ := scrapeStep_counts f s c url rest hQ hq
      have heta : scrapeStep f (s, c) = ((scrapeStep f (s, c)).1, (scrapeStep f (s, c)).2) := rfl
      rw [heta, c2]
      exact ih (scrapeStep f (s, c)).1 (bfsStep (linksOf f) t) (c + 1)
        (QInv_scrapeStep f s c hQ) b1 b2 b3 (by rw [c1, hcount]) (by omega)

/- ### Which URLs own graph nodes -/

lemma addNode_edges (g : Graph) (u : String) (m : Metadata) :
    (addNode g u m).edges = g.edges := by
  unfold addNode
  split <;> rfl

lemma addNode_mem (g : Graph) (u : String) (m : Metadata) :
    (u, m) ∈ (addNode g u m).nodes := by
  unfold addNode
  split
  · next hn =>
    unfold hasNode at hn
    obtain ⟨p, hp, hpu⟩ := List.any_eq_true.mp hn
    refine List.mem_map.mpr ⟨p, hp, ?_⟩
    dsimp only
    rw [if_pos (of_decide_eq_true hpu)]
  · exact List.mem_append_right _ (List.mem_singleton.mpr rfl)

lemma ensureNode_edges (g : Graph) (u : String) :
    (ensureNode g u).edges = g.edges := by
  unfold ensureNode
  split <;> rfl

lemma ensureNode_nodes_sub (g : Graph) (u : String) (p : String × Metadata)
    (hp : p ∈ (ensureNode g u).nodes) :
    p ∈ g.nodes ∨ p = (u, emptyMetadata) := by
  unfold ensureNode at hp
  split at hp
  · exact Or.inl hp
  · rcases List.mem_append.mp hp with h | h
    · exact Or.inl h
    · exact Or.inr (List.mem_singleton.mp h)

lemma addEdge_edges_mono (g : Graph) (u v : String) (e : String × String)
    (he : e ∈ g.edges) : e ∈ (addEdge g u v).edges := by
  unfold addEdge
  dsimp only
  by_cases hc : (u, v) ∈ (ensureNode (ensureNode g u) v).edges
  · rw [if_pos hc, ensureNode_edges, ensureNode_edges]
    exact he
  · rw [if_neg hc]
    dsimp only
    rw [ensureNode_edges, ensureNode_edges]
    exact List.mem_append_left _ he

lemma addEdge_mem (g : Graph) (u v : String) : (u, v) ∈ (addEdge g u v).edges := by
  unfold addEdge
  dsimp only
  by_cases hc : (u, v) ∈ (ensureNode (ensureNode g u) v).edges
  · rw [if_pos hc]
    exact hc
  · rw [if_neg hc]
    dsimp only
    exact List.mem_append_right _ (List.mem_singleton.mpr rfl)

lemma addEdge_nodes_cases (g : Graph) (u v : String) (p : String × Metadata)
    (hp : p ∈ (addEdge g u v).nodes) :
    p ∈ g.nodes ∨ p = (u, emptyMetadata) ∨ p = (v, emptyMetadata) := by
  unfold addEdge at hp
  dsimp only at hp
  have hp' : p ∈ (ensureNode (ensureNode g u) v).nodes := by
    split at hp
    · exact hp
    · exact hp
  rcases ensureNode_nodes_sub _ v p hp' with h | h
  · rcases ensureNode_nodes_sub g u p h with h' | h'
    · exact Or.inl h'
    · exact Or.inr (Or.inl h')
  · exact Or.inr (Or.inr h)

lemma covered_mono (g : Graph) (vis vis' : List String) (hsub : ∀ x ∈ vis, x ∈ vis')
    (h : Covered g vis) : Covered g vis' := by
  intro p hp
  rcases h p hp with h' | h'
  · exact Or.inl (hsub _ h')
  · exact Or.inr h'

lemma covered_addNode (g : Graph) (vis : List String) (u : String) (m : Metadata)
    (h : Covered g vis) (hu : u ∈ vis) : Covered (addNode g u m) vis := by
  intro p hp
  rw [addNode_edges]
  unfold addNode at hp
  split at hp
  · obtain ⟨q, hq, hpe⟩ := List.mem_map.mp hp
    by_cases hqu : q.1 = u
    · rw [if_pos hqu] at hpe
      exact Or.inl (hpe ▸ hu)
    · rw [if_neg hqu] at hpe
      exact hpe ▸ h q hq
  · rcases List.mem_append.mp hp with h' | h'
    · exact h p h'
    · rw [List.mem_singleton] at h'
      exact Or.inl (h' ▸ hu)

lemma covered_addEdge (g : Graph) (vis : List String) (u v : String)
    (h : Covered g vis) (hu : u ∈ vis) : Covered (addEdge g u v) vis := by
  intro p hp
  rcases addEdge_nodes_cases g u v p hp with h' | h' | h'
  · rcases h p h' with h'' | h''
    · exact Or.inl h''
    · obtain ⟨e, he, hev⟩ := h''
      exact Or.inr ⟨e, addEdge_edges_mono g u v e he, hev⟩
  · exact Or.inl (h' ▸ hu)
  · exact Or.inr ⟨(u, v), addEdge_mem g u v, by rw [h']⟩

lemma covered_foldAdmit (src : String) :
    ∀ (ls : List String) (s : CrawlState),
      Covered s.graph s.visited → src ∈ s.visited →
      Covered (ls.foldl (fun a l => admitLink a src l) s).graph
        (ls.foldl (fun a l => admitLink a src l) s).visited := by
  intro ls
  induction ls with
  | nil => intro s h _; exact h
  | cons v vs ih =>
    intro s h hsrc
    simp only [List.foldl_cons]
    apply ih
    · rw [admitLink_graph, admitLink_visited]
      exact covered_addEdge s.graph s.visited src v h hsrc
    · rw [admitLink_visited]
      exact hsrc

lemma covered_processUrl (f : Fetcher) (s : CrawlState) (url : String)
    (h : Covered s.graph s.visited) :
    Covered (processUrl f s url).graph (processUrl f s url).visited := by
  unfold processUrl
  dsimp only
  have hurl : url ∈ s.visited ++ [url] :=
    List.mem_append_right _ (List.mem_singleton.mpr rfl)
  apply covered_foldAdmit
  · dsimp only
    apply covered_addNode
    · exact covered_mono s.graph s.visited _ (fun x hx => List.mem_append_left _ hx) h
    · exact hurl
  · exact hurl

lemma scrapeStep_cons_skip (f : Fetcher) (s : CrawlState) (c : Nat) (url : String)
    (rest : List String) (hq : s.queue = url :: rest) (hv : url ∈ s.visited) :
    scrapeStep f (s, c) =
      ({ s with queue := rest, queued := s.queued.erase url }, c + 1 - 1) := by
  obtain ⟨g, vis, q, qd⟩ := s
  dsimp only at hq hv
  subst hq
  unfold scrapeStep
  dsimp only
  rw [if_pos hv]

lemma covered_scrapeStep (f : Fetcher) (s : CrawlState) (c : Nat)
    (h : Covered s.graph s.visited) :
    Covered (scrapeStep f (s, c)).1.graph (scrapeStep f (s, c)).1.visited := by
  cases hq : s.queue with
  | nil => rw [scrapeStep_nil f s c hq]; exact h
  | cons url rest =>
    by_cases hv : url ∈ s.visited
    · rw [scrapeStep_cons_skip f s c url rest hq hv]
      exact h
    · rw [scrapeStep_cons f s c url rest hq hv]
      exact covered_processUrl f _ url h

lemma covered_loopGo (f : Fetcher) (B : Nat) :
    ∀ (n : Nat) (sc : CrawlState × Nat), Covered sc.1.graph sc.1.visited →
      Covered (loopGo f B n sc).1.graph (loopGo f B n sc).1.visited := by
  intro n
  induction n with
  | zero => intro sc h; exact h
  | succ n ih =>
    intro sc h
    by_cases hc : loopCond B sc
    · rw [loopGo_succ_cond f B n sc hc]
      exact ih _ (covered_scrapeStep f sc.1 sc.2 h)
    · rw [loopGo_stable f B sc hc]
      exact h

/- ### The fragment never survives into a cleaned URL -/

lemma splitFirst_fst_not_mem (sep : Char) :
    ∀ l : List Char, sep ∉ (splitFirst sep l).1 := by
  intro l
  induction l with
  | nil => simp [splitFirst]
  | cons x xs ih =>
    by_cases hx : x = sep
    · simp [splitFirst, hx]
    · simp only [splitFirst, if_neg hx]
      intro hmem
      rcases List.mem_cons.mp hmem with h | h
      · exact hx h.symm
      · exact ih h

lemma splitFirst_fst_subset (sep : Char) :
    ∀ l : List Char, ∀ x ∈ (splitFirst sep l).1, x ∈ l := by
  intro l
  induction l with
  | nil => simp [splitFirst]
  | cons a as ih =>
    by_cases ha : a = sep
    · simp [splitFirst, ha]
    · simp only [splitFirst, if_neg ha]
      intro x hx
      rcases List.mem_cons.mp hx with h | h
      · exact h ▸ List.mem_cons_self a as
      · exact List.mem_cons_of_mem a (ih x h)

lemma splitFirst_sndD_subset (sep : Char) :
    ∀ l : List Char, ∀ x ∈ (splitFirst sep l).2.getD [], x ∈ l := by
  intro l
  induction l with
  | nil => simp [splitFirst]
  | cons a as ih =>
    by_cases ha : a = sep
    · simp only [splitFirst, if_pos ha, Option.getD_some]
      intro x hx
      exact List.mem_cons_of_mem a hx
    · simp only [splitFirst, if_neg ha]
      intro x hx
      exact List.mem_cons_of_mem a (ih x hx)

lemma splitScheme_subset :
    ∀ (l : List Char) (pr : List Char × List Char), splitScheme l = some pr →
      (∀ x ∈ pr.1, x ∈ l) ∧ (∀ x ∈ pr.2, x ∈ l) := by
  intro l
  induction l with
  | nil =>
    intro pr h
    simp [splitScheme] at h
  | cons a as ih =>
    intro pr h
    by_cases hc : a = ':' ∧ as.take 2 = ['/', '/']
    · rw [splitScheme, if_pos hc] at h
      cases h
      constructor
      · simp
      · intro x hx
        exact List.mem_cons_of_mem a (List.mem_of_mem_drop hx)
    · rw [splitScheme, if_neg hc] at h
      cases hs : splitScheme as with
      | none => rw [hs] at h; cases h
      | some r =>
        rw [hs] at h
        cases h
        obtain ⟨ih1, ih2⟩ := ih r hs
        constructor
        · intro x hx
          rcases List.mem_cons.mp hx with h' | h'
          · exact h' ▸ List.mem_cons_self a as
          · exact List.mem_cons_of_mem a (ih1 x h')
        · intro x hx
          exact List.mem_cons_of_mem a (ih2 x hx)

lemma netlocSplit_fst_subset :
    ∀ l : List Char, ∀ x ∈ (netlocSplit l).1, x ∈ l := by
  intro l
  induction l with
  | nil => simp [netlocSplit]
  | cons a as ih =>
    by_cases ha : a = '/' ∨ a = '?'
    · simp [netlocSplit, ha]
    · simp only [netlocSplit, if_neg ha]
      intro x hx
      rcases List.mem_cons.mp hx with h | h
      · exact h ▸ List.mem_cons_self a as
      · exact List.mem_cons_of_mem a (ih x h)

lemma netlocSplit_snd_subset :
    ∀ l : List Char, ∀ x ∈ (netlocSplit l).2, x ∈ l := by
  intro l
  induction l with
  | nil => simp [netlocSplit]
  | cons a as ih =>
    by_cases ha : a = '/' ∨ a = '?'
    · simp only [netlocSplit, if_pos ha]
      intro x hx
      exact hx
    · simp only [netlocSplit, if_neg ha]
      intro x hx
      exact List.mem_cons_of_mem a (ih x hx)

lemma containsSub_singleton (l : List Char) (c : Char) :
    containsSub [c] l = true ↔ c ∈ l := by
  induction l with
  | nil => simp [containsSub, isPrefixB]
  | cons x xs ih =>
    simp [containsSub, isPrefixB, ih, List.mem_cons]

/-- No component that `urlparse` returns (other than the fragment itself)
contains a `#`: the fragment is split off first. -/
lemma urlparse_no_hash (url : String) :
    '#' ∉ (urlparse url).scheme.data ∧ '#' ∉ (urlparse url).netloc.data ∧
    '#' ∉ (urlparse url).path.data ∧ '#' ∉ (urlparse url).query.data := by
  have hfr : '#' ∉ (splitFirst '#' url.data).1 := splitFirst_fst_not_mem '#' url.data
  unfold urlparse
  dsimp only
  cases hs : splitScheme (splitFirst '#' url.data).1 with
  | some sr =>
    obtain ⟨hs1, hs2⟩ := splitScheme_subset _ sr hs
    refine ⟨?_, ?_, ?_, ?_⟩
    · exact fun h => hfr (hs1 '#' h)
    · exact fun h => hfr (hs2 '#' (netlocSplit_fst_subset _ '#' h))
    · exact fun h =>
        hfr (hs2 '#' (netlocSplit_snd_subset _ '#' (splitFirst_fst_subset '?' _ '#' h)))
    · exact fun h =>
        hfr (hs2 '#' (netlocSplit_snd_subset _ '#' (splitFirst_sndD_subset '?' _ '#' h)))
  | none =>
    refine ⟨?_, ?_, ?_, ?_⟩
    · simp
    · simp
    · exact fun h => hfr (splitFirst_fst_subset '?' _ '#' h)
    · exact fun h => hfr (splitFirst_sndD_subset '?' _ '#' h)

/-- The `'#' not in url` test inside `is_valid_url` can never fire on the
cleaned URLs built by `fetch_links`: cleaning drops the fragment. -/
lemma clean_url_no_hash (page href : String) :
    containsSub "#".data (clean_url_of page href).data = false := by
  have hmem : '#' ∉ (clean_url_of page href).data := by
    have hn := urlparse_no_hash (urljoin page href)
    unfold clean_url_of
    dsimp only
    obtain ⟨h1, h2, h3, h4⟩ := hn
    have hsep : '#' ∉ "://".data := by decide
    have hqm : '#' ∉ "?".data := by decide
    by_cases hq : (urlparse (urljoin page href)).query ≠ ""
    · rw [if_pos hq]
      simp only [String.data_append, List.mem_append, not_or]
      tauto
    · rw [if_neg hq]
      simp only [String.data_append, List.mem_append, not_or]
      tauto
  cases h : containsSub "#".data (clean_url_of page href).data with
  | false => rfl
  | true => exact absurd ((containsSub_singleton _ '#').mp h) hmem

/- ### The claims -/

/-- C1: for every sequence of `admitLink` calls, and at every loop-top
point of the crawl (dequeues included), the queued-membership set equals
exactly the contents of the frontier queue and the frontier holds each
canonical URL at most once. -/
theorem C1_frontier_queue_sync :
    (∀ (s : CrawlState) (src : String) (links : List String), QInv s →
      QInv (links.foldl (fun a l => admitLink a src l) s)) ∧
    (∀ (s : CrawlState) (url : String) (rest : List String), QInv s →
      s.queue = url :: rest →
      QInv { s with queue := rest, queued := s.queued.erase url }) ∧
    (∀ (f : Fetcher) (B : Nat) (seed : String) (n : Nat),
      QInv (loopGo f B n (freshState seed, 0)).1) := by
  refine ⟨?_, ?_, ?_⟩
  · intro s src links h
    exact QInv_foldAdmit src links s h
  · intro s url rest h hq
    exact (QInv_dequeue s url rest h hq).2
  · intro f B seed n
    have h0 : CInv B (freshState seed, 0) :=
      ⟨⟨rfl, List.nodup_singleton seed, by simp [freshState]⟩, rfl, Nat.zero_le B⟩
    exact (CInv_loopGo f B n _ h0).1

/-- Witness for C1 at a concrete admission sequence (with a duplicate
link, which is admitted only once). -/
theorem C1_witness :
    QInv (freshState base_url) ∧
    QInv (["https://visakanv.com/a", "https://visakanv.com/a"].foldl
      (fun a l => admitLink a base_url l) (freshState base_url)) :=
  ⟨by decide, C1_frontier_queue_sync.1 (freshState base_url) base_url
    ["https://visakanv.com/a", "https://visakanv.com/a"] (by decide)⟩

/-- C2: with any fetcher (viewed as a function from URL to admitted
links), the order in which the crawl inserts URLs into the visited set
equals the reference breadth-first traversal order from the seed, for as
many steps as the page budget allows. -/
theorem C2_breadth_first_order (f : Fetcher) (B : Nat) (seed : String) (n : Nat)
    (h : n ≤ B) :
    (scrape f B n (freshState seed)).1.visited =
      (bfsRun (linksOf f) n (bfsInit seed)).order := by
  unfold scrape
  have hfresh : QInv (freshState seed) :=
    ⟨rfl, List.nodup_singleton seed, by simp [freshState]⟩
  exact loopGo_bfs f B n (freshState seed) (bfsInit seed) 0 hfresh rfl rfl rfl rfl
    (by omega)

/-- Witness for C2 on a concrete four-page site. -/
theorem C2_witness :
    5 ≤ 10 ∧
    (scrape sampleFetcher 10 5 (freshState "https://visakanv.com/")).1.visited =
      (bfsRun (linksOf sampleFetcher) 5 (bfsInit "https://visakanv.com/")).order :=
  ⟨by decide, C2_breadth_first_order sampleFetcher 10 "https://visakanv.com/" 5
    (by decide)⟩

/-- C3 counterexample: a run resumed from a checkpoint with one page
already visited, against an unbounded link graph with page budget 2,
terminates on the budget with a nonempty frontier after processing only
one page in that run — not the full budget of 2. -/
theorem C3_counterexample :
    QInv resumedState ∧
    (scrape chainFetcher 2 10 resumedState).1.queue ≠ [] ∧
    ¬ loopCond 2 (scrape chainFetcher 2 10 resumedState) ∧
    (scrape chainFetcher 2 10 resumedState).1.visited.length
      - resumedState.visited.length = 1 ∧
    (scrape chainFetcher 2 10 resumedState).1.visited.length
      - resumedState.visited.length ≠ 2 := by
  decide

/-- C3 amended: the budget bounds the cumulative visited count, not the
pages of a single run: a finished run that still has frontier left ends
with exactly `B` visited pages in total, hence processed
`B - |initially visited|` pages in that run (which equals the budget only
for a fresh crawl). -/
theorem C3_budget_bounds_total_visited (f : Fetcher) (B fuel : Nat)
    (s : CrawlState) (hQ : QInv s) (hb : s.visited.length ≤ B)
    (hq : (scrape f B fuel s).1.queue ≠ [])
    (hdone : ¬ loopCond B (scrape f B fuel s)) :
    (scrape f B fuel s).1.visited.length = B ∧
    (scrape f B fuel s).1.visited.length - s.visited.length
      = B - s.visited.length := by
  have hC : CInv B (loopGo f B fuel (s, s.visited.length)) :=
    CInv_loopGo f B fuel _ ⟨hQ, rfl, hb⟩
  unfold scrape at hq hdone ⊢
  have hc2 : ¬ (loopGo f B fuel (s, s.visited.length)).2 < B :=
    fun hlt => hdone ⟨hq, hlt⟩
  have hcount := hC.2.1
  have hle := hC.2.2
  constructor
  · omega
  · omega

/-- Witness for C3 (amended form) on a fresh crawl of an unbounded graph
with budget 3: exactly 3 pages processed. -/
theorem C3_witness :
    QInv (freshState base_url) ∧
    (freshState base_url).visited.length ≤ 3 ∧
    (scrape chainFetcher 3 10 (freshState base_url)).1.queue ≠ [] ∧
    ¬ loopCond 3 (scrape chainFetcher 3 10 (freshState base_url)) ∧
    ((scrape chainFetcher 3 10 (freshState base_url)).1.visited.length = 3 ∧
      (scrape chainFetcher 3 10 (freshState base_url)).1.visited.length
        - (freshState base_url).visited.length
        = 3 - (freshState base_url).visited.length) :=
  ⟨by decide, by decide, by decide, by decide,
    C3_budget_bounds_total_visited chainFetcher 3 10 (freshState base_url)
      (by decide) (by decide) (by decide) (by decide)⟩

/-- C4 counterexample: a link whose raw href contains `#` and whose
fragment-stripped form is a valid in-scope URL is admitted into the
link set of the page (and hence into frontier and graph) — the admission
filter does not reject it. -/
theorem C4_counterexample :
    containsSub "#".data "https://visakanv.com/post#top".data = true ∧
    processLink "https://visakanv.com/" "https://visakanv.com/post#top"
      = some "https://visakanv.com/post" ∧
    linkCandidates "https://visakanv.com/" ["https://visakanv.com/post#top"]
      = ["https://visakanv.com/post"] := by
  decide

/-- C4 amended: the `#` test runs on the cleaned URL, not the raw href.
A raw href containing `#` is admitted whenever its fragment-stripped
canonical form passes validation, and a cleaned URL never contains `#`,
so the `'#' not in url` check in `is_valid_url` never rejects anything on
this path. -/
theorem C4_anchor_links_admitted (page href : String)
    (_hraw : containsSub "#".data href.data = true)
    (hvalid : is_valid_url (clean_url_of page href) = true) :
    processLink page href = some (clean_url_of page href) ∧
    containsSub "#".data (clean_url_of page href).data = false := by
  refine ⟨?_, clean_url_no_hash page href⟩
  unfold processLink
  dsimp only
  rw [if_pos hvalid]

/-- Witness for C4 (amended form) on a concrete root-relative anchor
href. -/
theorem C4_witness :
    containsSub "#".data "/post#top".data = true ∧
    is_valid_url (clean_url_of "https://visakanv.com/" "/post#top") = true ∧
    (processLink "https://visakanv.com/" "/post#top"
        = some (clean_url_of "https://visakanv.com/" "/post#top") ∧
      containsSub "#".data
        (clean_url_of "https://visakanv.com/" "/post#top").data = false) :=
  ⟨by decide, by decide,
    C4_anchor_links_admitted "https://visakanv.com/" "/post#top" (by decide)
      (by decide)⟩

/-- C5 counterexample: after one crawl step, the graph already holds a
node for a URL that was merely discovered as a link target and is not in
the visited set — `add_edge` creates nodes eagerly. -/
theorem C5_counterexample :
    hasNode (loopGo sampleFetcher 100 1
      (freshState "https://visakanv.com/", 0)).1.graph "https://visakanv.com/b"
      = true ∧
    "https://visakanv.com/b" ∉
      (loopGo sampleFetcher 100 1 (freshState "https://visakanv.com/", 0)).1.visited := by
  decide

/-- C5 amended: a node with recorded metadata is created when its URL is
dequeued and processed, but `add_edge` also creates bare nodes for link
endpoints, so at every loop-top point each graph node is either visited
or the target of a recorded edge. -/
theorem C5_nodes_visited_or_linked (f : Fetcher) (B : Nat) (seed : String)
    (n : Nat) :
    Covered (loopGo f B n (freshState seed, 0)).1.graph
      (loopGo f B n (freshState seed, 0)).1.visited :=
  covered_loopGo f B n (freshState seed, 0)
    (fun p hp => absurd hp (List.not_mem_nil p))

/-- Witness for C5 (amended form): the unvisited node `b` is covered by
the edge from the seed. -/
theorem C5_witness :
    ("https://visakanv.com/b", emptyMetadata) ∈
      (loopGo sampleFetcher 100 1
        (freshState "https://visakanv.com/", 0)).1.graph.nodes ∧
    ("https://visakanv.com/b" ∈
        (loopGo sampleFetcher 100 1 (freshState "https://visakanv.com/", 0)).1.visited ∨
      ∃ e ∈ (loopGo sampleFetcher 100 1
          (freshState "https://visakanv.com/", 0)).1.graph.edges,
        e.2 = "https://visakanv.com/b") :=
  ⟨by decide,
    C5_nodes_visited_or_linked sampleFetcher 100 "https://visakanv.com/" 1
      ("https://visakanv.com/b", emptyMetadata) (by decide)⟩

/-- C6: when the fetch of a dequeued URL fails, the loop does not abort:
the failure is treated as an empty link set with empty metadata, the URL
is still marked visited, it still gets a graph node with empty
attributes, no edge is added, the counter advances, and the loop
continues with the remaining frontier. -/
theorem C6_fetch_failure_recovery (f : Fetcher) (s : CrawlState) (c : Nat)
    (url : String) (rest : List String) (hq : s.queue = url :: rest)
    (hv : url ∉ s.visited) (hf : f url = none) :
    (scrapeStep f (s, c)).1.visited = s.visited ++ [url] ∧
    (url, emptyMetadata) ∈ (scrapeStep f (s, c)).1.graph.nodes ∧
    (scrapeStep f (s, c)).1.graph.edges = s.graph.edges ∧
    (scrapeStep f (s, c)).1.queue = rest ∧
    (scrapeStep f (s, c)).2 = c + 1 ∧
    (∀ (B n : Nat), loopCond B (s, c) →
      loopGo f B (n + 1) (s, c) = loopGo f B n (scrapeStep f (s, c))) := by
  have hfl : fetch_links f url = ([], emptyMetadata) := by
    unfold fetch_links
    rw [hf]
    rfl
  refine ⟨?_, ?_, ?_, ?_, ?_, ?_⟩
  · rw [scrapeStep_cons f s c url rest hq hv]
    exact processUrl_visited f _ url
  · rw [scrapeStep_cons f s c url rest hq hv]
    unfold processUrl
    rw [hfl]
    exact addNode_mem _ url emptyMetadata
  · rw [scrapeStep_cons f s c url rest hq hv]
    unfold processUrl
    rw [hfl]
    exact addNode_edges _ url emptyMetadata
  · rw [scrapeStep_cons f s c url rest hq hv]
    unfold processUrl
    rw [hfl]
    rfl
  · rw [scrapeStep_cons f s c url rest hq hv]
  · intro B n hc
    exact loopGo_succ_cond f B n (s, c) hc

/-- Witness for C6: a failing fetch of the seed URL. -/
theorem C6_witness :
    (freshState base_url).queue = base_url :: [] ∧
    base_url ∉ (freshState base_url).visited ∧
    noneFetcher base_url = none ∧
    ((scrapeStep noneFetcher (freshState base_url, 0)).1.visited
        = (freshState base_url).visited ++ [base_url] ∧
      (base_url, emptyMetadata) ∈
        (scrapeStep noneFetcher (freshState base_url, 0)).1.graph.nodes ∧
      (scrapeStep noneFetcher (freshState base_url, 0)).1.graph.edges
        = (freshState base_url).graph.edges ∧
      (scrapeStep noneFetcher (freshState base_url, 0)).1.queue = [] ∧
      (scrapeStep noneFetcher (freshState base_url, 0)).2 = 0 + 1 ∧
      (∀ (B n : Nat), loopCond B (freshState base_url, 0) →
        loopGo noneFetcher B (n + 1) (freshState base_url, 0)
          = loopGo noneFetcher B n (scrapeStep noneFetcher (freshState base_url, 0)))) :=
  ⟨rfl, by decide, rfl,
    C6_fetch_failure_recovery noneFetcher (freshState base_url) 0 base_url []
      rfl (by decide) rfl⟩

/-- C7 counterexample: with no structured date field and no date signal
in the URL, the metadata record carries no publication date at all — the
field is absent, not the sentinel string Unknown. -/
theorem C7_counterexample :
    noDateSoup.published_meta = none ∧
    scanUrlDate (splitChar '/' "https://visakanv.com/about".data) = none ∧
    (fetch_page_metadata "https://visakanv.com/about" noDateSoup).pub_date
      ≠ some "Unknown" ∧
    (fetch_page_metadata "https://visakanv.com/about" noDateSoup).pub_date
      = none := by
  decide

/-- C7 amended: with no structured date field and no year/month pair in
the URL, the extracted metadata stores no publication date key at all;
the sentinel Unknown only appears when the field is read back with a
default or on the (unreachable) exception path. -/
theorem C7_missing_date_field (url : String) (soup : Soup)
    (hmeta : soup.published_meta = none)
    (hscan : scanUrlDate (splitChar '/' url.data) = none) :
    (fetch_page_metadata url soup).pub_date = none := by
  unfold fetch_page_metadata
  rw [hmeta]
  dsimp only
  exact hscan

/-- Witness for C7 (amended form). -/
theorem C7_witness :
    noDateSoup.published_meta = none ∧
    scanUrlDate (splitChar '/' "https://visakanv.com/about".data) = none ∧
    (fetch_page_metadata "https://visakanv.com/about" noDateSoup).pub_date
      = none :=
  ⟨rfl, by decide,
    C7_missing_date_field "https://visakanv.com/about" noDateSoup rfl (by decide)⟩

/-- C8 counterexample: an interruption is not safe at every loop point.
Interrupting while `fetch_links` blocks on page `a` — after the dequeue
of lines 153–154, before the `visited.add` of line 174 — checkpoints a
state in which `a` is in neither the frontier nor the visited set.  On
the three-page line seed → a → c, both the uninterrupted run and the
resumed run terminate, yet their final graphs differ: the resumed run
never crawls `a`, so it misses the metadata of `a`, the node `c` and the
edge a → c. -/
theorem C8_counterexample :
    "https://visakanv.com/a" ∈
      (loopGo lineFetcher 100 1 (freshState "https://visakanv.com/", 0)).1.queue ∧
    "https://visakanv.com/a" ∉
      (dequeueOnly
        (loopGo lineFetcher 100 1 (freshState "https://visakanv.com/", 0)).1).queue ∧
    "https://visakanv.com/a" ∉
      (dequeueOnly
        (loopGo lineFetcher 100 1 (freshState "https://visakanv.com/", 0)).1).visited ∧
    ¬ loopCond 100 (scrape lineFetcher 100 10 (freshState "https://visakanv.com/")) ∧
    ¬ loopCond 100 (scrape lineFetcher 100 10 (load_checkpoint (save_checkpoint
      (dequeueOnly
        (loopGo lineFetcher 100 1 (freshState "https://visakanv.com/", 0)).1)))) ∧
    (scrape lineFetcher 100 10 (freshState "https://visakanv.com/")).1.graph ≠
      (scrape lineFetcher 100 10 (load_checkpoint (save_checkpoint
        (dequeueOnly
          (loopGo lineFetcher 100 1
            (freshState "https://visakanv.com/", 0)).1)))).1.graph := by
  decide

/-- C8 amended: with a deterministic fetcher, crawling to completion in
one run and crawling with a forced interruption at a loop-iteration
boundary — after any number of completed iterations — followed by a
checkpoint save, reload, and resume produce the identical final graph
(the modelled checkpoint round-trips the state exactly, as pickle does).
An interruption inside an iteration, between the dequeue and the
visited-insertion, is not covered: there the checkpoint drops the
in-flight URL, see the counterexample. -/
theorem C8_resume_equivalence (f : Fetcher) (B : Nat) (seed : String)
    (fuel1 k fuel2 : Nat)
    (h1 : ¬ loopCond B (scrape f B fuel1 (freshState seed)))
    (h2 : ¬ loopCond B (scrape f B fuel2 (load_checkpoint
      (save_checkpoint (loopGo f B k (freshState seed, 0)).1)))) :
    (scrape f B fuel1 (freshState seed)).1.graph =
      (scrape f B fuel2 (load_checkpoint
        (save_checkpoint (loopGo f B k (freshState seed, 0)).1))).1.graph := by
  have hrt : ∀ s : CrawlState, load_checkpoint (save_checkpoint s) = s := by
    intro s
    cases s
    rfl
  have hfreshC : CInv B (freshState seed, 0) :=
    ⟨⟨rfl, List.nodup_singleton seed, by simp [freshState]⟩, rfl, Nat.zero_le B⟩
  have hk : CInv B (loopGo f B k (freshState seed, 0)) := CInv_loopGo f B k _ hfreshC
  have hres : scrape f B fuel2 (load_checkpoint
      (save_checkpoint (loopGo f B k (freshState seed, 0)).1))
      = loopGo f B (k + fuel2) (freshState seed, 0) := by
    rw [hrt]
    unfold scrape
    rw [← hk.2.1, Prod.mk.eta, ← loopGo_add]
  rw [hres] at h2 ⊢
  unfold scrape at h1 ⊢
  have hzero : (freshState seed).visited.length = 0 := rfl
  rw [hzero] at h1 ⊢
  rw [loopGo_eq_of_terminal f B (freshState seed, 0) fuel1 (k + fuel2) h1 h2]

/-- Witness for C8: full run versus interrupt-after-one-page and resume
on the concrete four-page site. -/
theorem C8_witness :
    ¬ loopCond 100 (scrape sampleFetcher 100 10 (freshState "https://visakanv.com/")) ∧
    ¬ loopCond 100 (scrape sampleFetcher 100 10 (load_checkpoint
      (save_checkpoint (loopGo sampleFetcher 100 1
        (freshState "https://visakanv.com/", 0)).1))) ∧
    (scrape sampleFetcher 100 10 (freshState "https://visakanv.com/")).1.graph =
      (scrape sampleFetcher 100 10 (load_checkpoint
        (save_checkpoint (loopGo sampleFetcher 100 1
          (freshState "https://visakanv.com/", 0)).1))).1.graph :=
  ⟨by decide, by decide,
    C8_resume_equivalence sampleFetcher 100 "https://visakanv.com/" 10 1 10
      (by decide) (by decide)⟩

/-- C9 counterexample: on an external interruption signal the handler
saves a checkpoint but swallows the exception — nothing is re-raised and
the process exits normally, contradicting the claimed abnormal exit in
both cases. -/
theorem C9_counterexample :
    (main_exit RunOutcome.keyboardInterrupt (freshState base_url)).propagated
      = none ∧
    (main_exit RunOutcome.keyboardInterrupt (freshState base_url)).savedOnExit
      = some (save_checkpoint (freshState base_url)) :=
  ⟨rfl, rfl⟩

/-- C9 amended: every abnormal ending saves a full checkpoint of the
crawl state first, but only non-interrupt errors are re-raised; a
KeyboardInterrupt is swallowed and the process exits normally after the
save. -/
theorem C9_save_then_maybe_reraise (s : CrawlState) (oc : RunOutcome)
    (h : oc ≠ RunOutcome.completed) :
    (main_exit oc s).savedOnExit = some (save_checkpoint s) ∧
    ((main_exit oc s).propagated ≠ none ↔ ∃ e, oc = RunOutcome.error e) := by
  cases oc with
  | completed => exact absurd rfl h
  | keyboardInterrupt =>
    refine ⟨rfl, ?_⟩
    constructor
    · intro hne
      exact absurd rfl hne
    · rintro ⟨e, he⟩
      cases he
  | error e =>
    refine ⟨rfl, ?_⟩
    constructor
    · intro _
      exact ⟨e, rfl⟩
    · intro _
      exact Option.some_ne_none e

/-- Witness for C9 (amended form) on a concrete error outcome. -/
theorem C9_witness :
    RunOutcome.error "boom" ≠ RunOutcome.completed ∧
    ((main_exit (RunOutcome.error "boom") (freshState base_url)).savedOnExit
        = some (save_checkpoint (freshState base_url)) ∧
      ((main_exit (RunOutcome.error "boom") (freshState base_url)).propagated
          ≠ none ↔ ∃ e, RunOutcome.error "boom" = RunOutcome.error e)) :=
  ⟨by decide,
    C9_save_then_maybe_reraise (freshState base_url) (RunOutcome.error "boom")
      (by decide)⟩

/-- C10: the domain-scope check is a plain string-suffix test on the
host: any URL passing the other checks whose host merely ends with the
domain string is accepted, and in particular the host
evilvisakanv.com — neither the domain itself nor one of its
subdomains — is admitted. -/
theorem C10_domain_suffix_scope :
    (∀ url : String,
      ((urlparse url).scheme == "http" || (urlparse url).scheme == "https")
        = true →
      endsWithB (urlparse url).netloc.data domain.data = true →
      badExtensions.any
        (fun ext => containsSub ext.data (urlparse url).path.data) = false →
      containsSub "#".data url.data = false →
      is_valid_url url = true) ∧
    is_valid_url "https://evilvisakanv.com/page" = true ∧
    (urlparse "https://evilvisakanv.com/page").netloc = "evilvisakanv.com" ∧
    "evilvisakanv.com" ≠ domain ∧
    endsWithB "evilvisakanv.com".data ("." ++ domain).data = false := by
  refine ⟨?_, by decide, by decide, by decide, by decide⟩
  intro url h1 h2 h3 h4
  show (((urlparse url).scheme == "http" || (urlparse url).scheme == "https") &&
    endsWithB (urlparse url).netloc.data domain.data &&
    !(badExtensions.any fun ext => containsSub ext.data (urlparse url).path.data) &&
    !(containsSub "#".data url.data)) = true
  rw [h1, h2, h3, h4]
  rfl

/-- Witness for C10 on a genuine subdomain URL. -/
theorem C10_witness :
    (((urlparse "https://sub.visakanv.com/x").scheme == "http" ||
        (urlparse "https://sub.visakanv.com/x").scheme == "https") = true) ∧
    endsWithB (urlparse "https://sub.visakanv.com/x").netloc.data domain.data
      = true ∧
    badExtensions.any (fun ext =>
      containsSub ext.data (urlparse "https://sub.visakanv.com/x").path.data)
      = false ∧
    containsSub "#".data "https://sub.visakanv.com/x".data = false ∧
    is_valid_url "https://sub.visakanv.com/x" = true :=
  ⟨by decide, by decide, by decide, by decide,
    C10_domain_suffix_scope.1 "https://sub.visakanv.com/x" (by decide) (by decide)
      (by decide) (by decide)⟩

end Scrape
